import Mathlib

/-!
Verification of the incremental-cache core of the wire code generator.

The Go sources are shallowly embedded as follows:

* Byte strings (Go `string` and `[]byte` values, paths, hash digests) are
  `Bytes := List Nat`.  Go's `nil` slice and the empty string both become `[]`.
* External collaborators from the standard library are fields of a `Sys`
  record: `hashHex` models `sha256` + `fmt.Sprintf("%x", ...)` (an arbitrary
  digest function; theorems that need collision-freedom take injectivity as a
  hypothesis), `clean`/`dir`/`join` model `path/filepath` operations,
  `stat`/`readFile` model the file system seen by the hashing code, and
  `extraPaths` models the `extraCachePathsFunc` hook (itself an injection
  point in the Go code).
* The on-disk cache directory is a `Store := Bytes → Option Bytes` mapping
  file paths to file contents; `none` means the file is absent.  Fallible Go
  functions returning `(T, error)` become `Option T`.
* The JSON metadata and manifest entries read back from disk are abstracted
  as key-indexed stores (`Bytes → Option cacheMeta`, `Bytes → Option
  cacheManifest`), matching `readCacheMeta`/`readManifest`, which decode a
  file into the structure or report a miss.
-/

/-- Byte strings: Go strings, byte slices, paths and hex digests. -/
abbrev Bytes := List Nat

/-- The bytes of an ASCII string literal. -/
def bs (s : String) : Bytes := s.data.map Char.toNat

/-- One hashed component followed by the `0x00` delimiter byte
(`h.Write(x); h.Write([]byte{0})` in the Go code). -/
def delim (x : Bytes) : Bytes := x ++ [0]

/-- Sorting of byte strings, modelling `sort.Strings` (lexicographic). -/
def sortBytes (l : List Bytes) : List Bytes := List.insertionSort (· ≤ ·) l

/-- `sortedStrings` from manifest.go: a sorted copy of the input
(the Go `nil`-for-empty special case is the identity in this model). -/
def sortedStrings (values : List Bytes) : List Bytes := sortBytes values

/-- Result of `os.Stat`: size in bytes and mtime in nanoseconds. -/
structure FileInfo where
  size : Int
  modTime : Int
deriving DecidableEq, Repr

/-- The standard-library collaborators used by the cache code. -/
structure Sys where
  /-- `sha256` digest rendered as hex (`fmt.Sprintf("%x", h.Sum(nil))`). -/
  hashHex : Bytes → Bytes
  /-- `filepath.Clean`. -/
  clean : Bytes → Bytes
  /-- `filepath.Dir`. -/
  dir : Bytes → Bytes
  /-- `filepath.Join` of two components. -/
  join : Bytes → Bytes → Bytes
  /-- `os.TempDir()`. -/
  tempDir : Bytes
  /-- `os.Stat` on the tree of source files being hashed. -/
  stat : Bytes → Option FileInfo
  /-- `os.ReadFile` on the tree of source files being hashed. -/
  readFile : Bytes → Option Bytes
  /-- The `extraCachePathsFunc` hook (walks ancestors for go.mod etc.). -/
  extraPaths : Bytes → List Bytes

/-- `cacheVersion`, the schema/version identifier for cache entries. -/
def cacheVersion : Bytes := bs "wire-cache-v3"

/-- `cacheFile`: file metadata used to validate cached content. -/
structure cacheFile where
  path : Bytes
  size : Int
  modTime : Int
deriving DecidableEq, Repr

/-- `cacheMeta`: inputs and outputs for a single package cache entry. -/
structure cacheMeta where
  version : Bytes
  pkgPath : Bytes
  tags : Bytes
  prefixOut : Bytes
  headerHash : Bytes
  files : List cacheFile
  contentHash : Bytes
  rootHash : Bytes
deriving DecidableEq, Repr

/-- `GenerateOptions` (fields per the facade contract: `Header`,
`PrefixOutputFile`, `Tags`); declared in the facade file, used throughout
the cache code. -/
structure GenerateOptions where
  header : Bytes
  prefixOutputFile : Bytes
  tags : Bytes
deriving DecidableEq, Repr

/-- `*packages.Package` as the cache code consumes it: package path, direct
`GoFiles`, `CompiledGoFiles`, and the imports graph (a finite tree here;
the loader returns an acyclic import graph). -/
inductive Pkg where
  | mk (pkgPath : Bytes) (goFiles : List Bytes) (compiledGoFiles : List Bytes)
      (imports : List Pkg)

/-- Package path accessor. -/
def Pkg.pkgPath : Pkg → Bytes | .mk p _ _ _ => p
/-- `GoFiles` accessor. -/
def Pkg.goFiles : Pkg → List Bytes | .mk _ g _ _ => g
/-- `CompiledGoFiles` accessor. -/
def Pkg.compiledGoFiles : Pkg → List Bytes | .mk _ _ c _ => c
/-- `Imports` accessor (map values, in iteration order). -/
def Pkg.imports : Pkg → List Pkg | .mk _ _ _ i => i

mutual
/-- Size of a package tree, used to bound the traversal in `packageFiles`. -/
def pkgSize : Pkg → Nat
  | .mk _ _ _ imps => 1 + pkgsSize imps
/-- Total size of a list of package trees. -/
def pkgsSize : List Pkg → Nat
  | [] => 0
  | p :: rest => pkgSize p + pkgsSize rest
end

theorem pkgsSize_append (a b : List Pkg) :
    pkgsSize (a ++ b) = pkgsSize a + pkgsSize b := by
  induction a with
  | nil => simp [pkgsSize]
  | cons p rest ih => simp [pkgsSize, ih, Nat.add_assoc]

theorem pkgSize_pos (p : Pkg) : 0 < pkgSize p := by
  cases p with
  | mk a b c d => simp [pkgSize]

/-- The worklist loop of `packageFiles`: pop a package, skip it if its path
was already seen, otherwise emit its compiled (or direct) files and push its
imports.  `fuel` is an explicit bound on the remaining work (`pkgsSize` of
the worklist) so the recursion is structural; `packageFilesAux_fuel` shows
the result does not depend on the bound once it is large enough, so this
computes exactly what the Go loop computes. -/
def packageFilesAux : Nat → List Bytes → List Pkg → List Bytes
  | 0, _, _ => []
  | _ + 1, _, [] => []
  | fuel + 1, seen, p :: rest =>
    if p.pkgPath ∈ seen then packageFilesAux fuel seen rest
    else
      let fs := if p.compiledGoFiles ≠ [] then p.compiledGoFiles else p.goFiles
      fs ++ packageFilesAux fuel (p.pkgPath :: seen) (p.imports ++ rest)

/-- `packageFiles`: the transitive Go files for a package graph. -/
def packageFiles (root : Pkg) : List Bytes :=
  packageFilesAux (pkgsSize [root]) [] [root]

theorem packageFilesAux_nil (fuel : Nat) (seen : List Bytes) :
    packageFilesAux fuel seen [] = [] := by
  cases fuel <;> simp [packageFilesAux]

theorem packageFilesAux_fuel (fuel fuel' : Nat) (seen : List Bytes)
    (stack : List Pkg) (h : pkgsSize stack ≤ fuel) (h' : pkgsSize stack ≤ fuel') :
    packageFilesAux fuel seen stack = packageFilesAux fuel' seen stack := by
  induction fuel using Nat.strong_induction_on generalizing fuel' seen stack with
  | _ fuel ih =>
    match fuel, fuel', stack with
    | 0, _, [] => simp [packageFilesAux, packageFilesAux_nil]
    | _ + 1, 0, [] => simp [packageFilesAux, packageFilesAux_nil]
    | _ + 1, _ + 1, [] => simp [packageFilesAux]
    | 0, _, p :: rest =>
      exact absurd h (by simp [pkgsSize]; have := pkgSize_pos p; omega)
    | _ + 1, 0, p :: rest =>
      exact absurd h' (by simp [pkgsSize]; have := pkgSize_pos p; omega)
    | f + 1, f' + 1, p :: rest =>
      have hp := pkgSize_pos p
      have hsz : pkgSize p = 1 + pkgsSize p.imports := by
        cases p with | mk a b c d => simp [pkgSize, Pkg.imports]
      simp only [packageFilesAux]
      by_cases hseen : p.pkgPath ∈ seen
      · simp only [hseen, if_true]
        exact ih f (Nat.lt_succ_self f) _ _ _
          (by simp [pkgsSize] at h; omega) (by simp [pkgsSize] at h'; omega)
      · simp only [hseen, if_false]
        congr 1
        exact ih f (Nat.lt_succ_self f) _ _ _
          (by simp [pkgsSize, pkgsSize_append] at h ⊢; omega)
          (by simp [pkgsSize, pkgsSize_append] at h' ⊢; omega)

theorem sortBytes_perm (l : List Bytes) : (sortBytes l).Perm l :=
  List.perm_insertionSort _ l

theorem sortBytes_perm_eq {l l' : List Bytes} (h : l.Perm l') :
    sortBytes l = sortBytes l' :=
  List.eq_of_perm_of_sorted
    (((List.perm_insertionSort _ l).trans h).trans (List.perm_insertionSort _ l').symm)
    (List.sorted_insertionSort _ l) (List.sorted_insertionSort _ l')

theorem sortBytes_idem (l : List Bytes) : sortBytes (sortBytes l) = sortBytes l :=
  List.eq_of_perm_of_sorted (List.perm_insertionSort _ _)
    (List.sorted_insertionSort _ _) (List.sorted_insertionSort _ l)

/-- `headerHash`: stable hash of the generated header content; empty header
hashes to the empty string. -/
def headerHash (sys : Sys) (header : Bytes) : Bytes :=
  if header = [] then [] else sys.hashHex header

/-- `cacheMetaKey`: key for a package's cache metadata entry, the digest of
`version ∥ pkgPath ∥ tags ∥ prefix ∥ headerHash` (no delimiter after the
final component in the Go code). -/
def cacheMetaKey (sys : Sys) (pkg : Pkg) (opts : GenerateOptions) : Bytes :=
  sys.hashHex (delim cacheVersion ++ delim pkg.pkgPath ++ delim opts.tags ++
    delim opts.prefixOutputFile ++ headerHash sys opts.header)

/-- The per-file portion of the hash input streams: for each path, the path
and its bytes, each followed by the `0x00` delimiter; `none` when any read
fails (the Go loop returns the read error). -/
def fileStream (sys : Sys) : List Bytes → Option Bytes
  | [] => some []
  | name :: rest => do
    let data ← sys.readFile name
    let tail ← fileStream sys rest
    pure (delim name ++ delim data ++ tail)

/-- `hashFiles`: combined content hash for the provided paths; the empty
list hashes to the empty string. -/
def hashFiles (sys : Sys) (files : List Bytes) : Option Bytes :=
  if files = [] then some []
  else (fileStream sys files).map sys.hashHex

/-- `contentHashForPaths`: digest of
`version ∥ pkgPath ∥ tags ∥ prefix ∥ headerHash ∥ (path ∥ bytes)*`, each
component followed by the `0x00` delimiter.  (`contentHashForFiles` merely
forwards `pkg.PkgPath` here.) -/
def contentHashForPaths (sys : Sys) (pkgPath : Bytes) (opts : GenerateOptions)
    (files : List Bytes) : Option Bytes :=
  (fileStream sys files).map fun fstream =>
    sys.hashHex (delim cacheVersion ++ delim pkgPath ++ delim opts.tags ++
      delim opts.prefixOutputFile ++ delim (headerHash sys opts.header) ++ fstream)

/-- `buildCacheFiles`: stat every path and record the
`(cleaned path, size, mtime)` triple; `none` on the first stat failure. -/
def buildCacheFiles (sys : Sys) : List Bytes → Option (List cacheFile)
  | [] => some []
  | name :: rest => do
    let info ← sys.stat name
    let out ← buildCacheFiles sys rest
    pure (⟨sys.clean name, info.size, info.modTime⟩ :: out)

/-- `rootPackageFiles`: the direct Go files of the root package
(compiled files if present, else direct files). -/
def rootPackageFiles (pkg : Pkg) : List Bytes :=
  if pkg.compiledGoFiles ≠ [] then pkg.compiledGoFiles
  else if pkg.goFiles ≠ [] then pkg.goFiles
  else []

/-- `cacheMetaMatches`: does stored metadata match the current package
inputs?  The Go index loop over `meta.Files` and `current` runs under the
preceding length check, so it is list equality here. -/
def cacheMetaMatches (sys : Sys) (meta : cacheMeta) (pkg : Pkg)
    (opts : GenerateOptions) (files : List Bytes) : Bool :=
  if meta.version ≠ cacheVersion then false
  else if meta.pkgPath ≠ pkg.pkgPath ∨ meta.tags ≠ opts.tags ∨
      meta.prefixOut ≠ opts.prefixOutputFile then false
  else if meta.headerHash ≠ headerHash sys opts.header then false
  else if meta.files.length ≠ files.length then false
  else
    match buildCacheFiles sys files with
    | none => false
    | some current =>
      if meta.files ≠ current then false
      else
        let rootFiles := rootPackageFiles pkg
        if rootFiles = [] ∨ meta.rootHash = [] then false
        else
          match hashFiles sys (sortBytes rootFiles) with
          | none => false
          | some rootHash =>
            if rootHash ≠ meta.rootHash then false
            else meta.contentHash ≠ []

/-- `cacheKeyForPackage`: the content hash for a package, if cacheable.
Returns the hash result (`some []`, the empty string, when the package has
no files; `none` on error) together with the metadata entry passed to
`writeCacheMeta` (`none` when nothing is written). -/
def cacheKeyForPackage (sys : Sys) (metaStore : Bytes → Option cacheMeta)
    (pkg : Pkg) (opts : GenerateOptions) :
    Option Bytes × Option (Bytes × cacheMeta) :=
  let files0 := packageFiles pkg
  if files0 = [] then (some [], none)
  else
    let files := sortBytes files0
    let metaKey := cacheMetaKey sys pkg opts
    let hit : Option Bytes :=
      match metaStore metaKey with
      | some meta =>
        if cacheMetaMatches sys meta pkg opts files then some meta.contentHash
        else none
      | none => none
    match hit with
    | some ch => (some ch, none)
    | none =>
      match contentHashForPaths sys pkg.pkgPath opts files with
      | none => (none, none)
      | some contentHash =>
        match hashFiles sys (sortBytes (rootPackageFiles pkg)) with
        | none => (none, none)
        | some rootHash =>
          match buildCacheFiles sys files with
          | none => (none, none)
          | some metaFiles =>
            (some contentHash,
             some (metaKey,
               ⟨cacheVersion, pkg.pkgPath, opts.tags, opts.prefixOutputFile,
                headerHash sys opts.header, metaFiles, contentHash, rootHash⟩))

/-- The on-disk cache directory: a map from file path to contents. -/
def Store := Bytes → Option Bytes

/-- Pointwise update of a store (`some` writes a file, `none` removes it). -/
def Store.upd (s : Store) (p : Bytes) (v : Option Bytes) : Store :=
  fun q => if q = p then v else s q

/-- `cacheDir`: base directory for wire cache files. -/
def cacheDir (sys : Sys) : Bytes := sys.join sys.tempDir (bs "wire-cache")

/-- `cachePath`: on-disk path for a cached content hash. -/
def cachePath (sys : Sys) (key : Bytes) : Bytes :=
  sys.join (cacheDir sys) (key ++ bs ".bin")

/-- `cacheMetaPath`: on-disk path for a cache metadata key. -/
def cacheMetaPath (sys : Sys) (key : Bytes) : Bytes :=
  sys.join (cacheDir sys) (key ++ bs ".json")

/-- `cacheManifestPath`: on-disk path for a manifest key. -/
def cacheManifestPath (sys : Sys) (key : Bytes) : Bytes :=
  sys.join (cacheDir sys) (key ++ bs ".manifest.json")

/-- `readCache`: read a cached content blob by key (`none` is a miss). -/
def readCache (sys : Sys) (store : Store) (key : Bytes) : Option Bytes :=
  store (cachePath sys key)

/-- Which of the injected `os` hooks succeed during one cache write:
`MkdirAll`, `CreateTemp` (with the fresh temp path it returns), `Write`,
`Close` and `Rename`. -/
structure WriteOutcome where
  mkdirOk : Bool
  temp : Option Bytes
  writeOk : Bool
  closeOk : Bool
  renameOk : Bool
deriving DecidableEq, Repr

/-- The shared temp-file-then-rename skeleton of `writeCache`,
`writeCacheMeta` and `writeManifestFile`: create a temp file, write the
data, close, rename over the destination; on any write/close/rename error
remove the temp file and return (no error is ever reported to the caller —
the Go functions have no return value).  `writeCache`'s `fs.ErrExist`
branch on rename also just removes the temp file, as the general rename
failure branch does. -/
def atomicWrite (store : Store) (wo : WriteOutcome) (dest : Bytes)
    (data : Bytes) : Store :=
  if !wo.mkdirOk then store
  else
    match wo.temp with
    | none => store
    | some tmp =>
      let s1 := store.upd tmp (some [])
      if !(wo.writeOk && wo.closeOk) then s1.upd tmp none
      else
        let s2 := s1.upd tmp (some data)
        if wo.renameOk then (s2.upd tmp none).upd dest (some data)
        else s2.upd tmp none

/-- `writeCache`: persist a content blob under its cache key. -/
def writeCache (sys : Sys) (store : Store) (wo : WriteOutcome) (key : Bytes)
    (content : Bytes) : Store :=
  atomicWrite store wo (cachePath sys key) content

/-- `writeCacheMeta`: persist cache metadata; `data` is the result of
`json.Marshal` on the entry (`none` when marshalling fails, in which case
nothing is written). -/
def writeCacheMeta (sys : Sys) (store : Store) (wo : WriteOutcome)
    (key : Bytes) (data : Option Bytes) : Store :=
  match data with
  | none => store
  | some d => atomicWrite store wo (cacheMetaPath sys key) d

/-- `writeManifestFile`: persist a marshalled manifest under its key
(`data` is the `json.Marshal` result, `none` on marshal failure). -/
def writeManifestFile (sys : Sys) (store : Store) (wo : WriteOutcome)
    (key : Bytes) (data : Option Bytes) : Store :=
  match data with
  | none => store
  | some d => atomicWrite store wo (cacheManifestPath sys key) d

/-- `cacheManifest`: per-run cache metadata for generated packages. -/
structure manifestPackage where
  pkgPath : Bytes
  outputPath : Bytes
  files : List cacheFile
  contentHash : Bytes
  rootFiles : List cacheFile
  rootHash : Bytes
deriving DecidableEq, Repr

/-- `cacheManifest`: the run-level cache record. -/
structure cacheManifest where
  version : Bytes
  wd : Bytes
  tags : Bytes
  prefixOut : Bytes
  headerHash : Bytes
  envHash : Bytes
  patterns : List Bytes
  packages : List manifestPackage
  extraFiles : List cacheFile
deriving DecidableEq, Repr

/-- A delimited stream of byte strings (`h.Write(v); h.Write([]byte{0})`
for each element), used for the environment and pattern lists. -/
def listStream : List Bytes → Bytes
  | [] => []
  | v :: rest => delim v ++ listStream rest

/-- `envHash`: stable hash of the sorted environment variables; the empty
environment hashes to the empty string. -/
def envHash (sys : Sys) (env : List Bytes) : Bytes :=
  if env = [] then [] else sys.hashHex (listStream (sortedStrings env))

/-- `manifestKey`: cache key for a run configuration, the digest of
`version ∥ Clean(wd) ∥ envHash ∥ tags ∥ prefix ∥ headerHash ∥ sorted
patterns`, every component delimited by `0x00`. -/
def manifestKey (sys : Sys) (wd : Bytes) (env : List Bytes)
    (patterns : List Bytes) (opts : GenerateOptions) : Bytes :=
  sys.hashHex (delim cacheVersion ++ delim (sys.clean wd) ++
    delim (envHash sys env) ++ delim opts.tags ++ delim opts.prefixOutputFile ++
    delim (headerHash sys opts.header) ++ listStream (sortedStrings patterns))

/-- `manifestKeyFromManifest`: rebuild the cache key from stored metadata;
the nil manifest maps to the empty string. -/
def manifestKeyFromManifest (sys : Sys) : Option cacheManifest → Bytes
  | none => []
  | some m =>
    sys.hashHex (delim cacheVersion ++ delim (sys.clean m.wd) ++
      delim m.envHash ++ delim m.tags ++ delim m.prefixOut ++
      delim m.headerHash ++ listStream (sortedStrings m.patterns))

/-- `buildCacheFilesFromMeta`: re-stat the recorded paths to compare
metadata; `none` on the first stat failure. -/
def buildCacheFilesFromMeta (sys : Sys) : List cacheFile → Option (List cacheFile)
  | [] => some []
  | file :: rest => do
    let info ← sys.stat file.path
    let out ← buildCacheFilesFromMeta sys rest
    pure (⟨sys.clean file.path, info.size, info.modTime⟩ :: out)

/-- The `ExtraFiles` check inside `manifestValid`: when extra files are
recorded, re-stat them all and compare each triple (the Go index loop runs
under its length check, so it is list equality here). -/
def extraFilesOk (sys : Sys) (extras : List cacheFile) : Bool :=
  if extras = [] then true
  else
    match buildCacheFilesFromMeta sys extras with
    | none => false
    | some current =>
      decide (current.length = extras.length) && decide (extras = current)

/-- The per-package check inside `manifestValid`: non-empty content hash,
non-empty root file list and root hash, every recorded `Files` and
`RootFiles` triple still current, and the recomputed root-file hash equal
to the stored one. -/
def manifestPackageOk (sys : Sys) (p : manifestPackage) : Bool :=
  decide (p.contentHash ≠ []) &&
  decide (p.rootFiles ≠ [] ∧ p.rootHash ≠ []) &&
  (match buildCacheFilesFromMeta sys p.files with
   | none => false
   | some current =>
     decide (current.length = p.files.length) && decide (p.files = current)) &&
  (match buildCacheFilesFromMeta sys p.rootFiles with
   | none => false
   | some rootCurrent =>
     decide (rootCurrent.length = p.rootFiles.length) &&
     decide (p.rootFiles = rootCurrent)) &&
  (match hashFiles sys (sortBytes (p.rootFiles.map cacheFile.path)) with
   | none => false
   | some rootHash => decide (rootHash = p.rootHash))

/-- `manifestValid`: does the manifest still match current inputs?
(`none` models the nil manifest pointer.) -/
def manifestValid (sys : Sys) : Option cacheManifest → Bool
  | none => false
  | some m =>
    decide (m.version = cacheVersion) &&
    decide (m.envHash ≠ [] ∧ m.packages ≠ []) &&
    extraFilesOk sys m.extraFiles &&
    m.packages.all (manifestPackageOk sys)

/-- Errors surfaced through `GenerateResult.Errs`: output-directory
detection failures, cache-key (hashing I/O) failures, and the loader,
injector-generation and formatting errors reported by collaborators. -/
inductive WErr where
  | dirErr
  | keyErr
  | loadErr (n : Nat)
  | genErr (n : Nat)
  | fmtErr (n : Nat)
deriving DecidableEq, Repr

/-- `GenerateResult`: per-package outcome of generation
(`{PkgPath, OutputPath, Content, Errs}` per the facade contract). -/
structure GenerateResult where
  pkgPath : Bytes
  outputPath : Bytes
  content : Bytes
  errs : List WErr
deriving DecidableEq, Repr

/-- The loop of `readManifestResults` over the manifest's packages: read
each package's content blob from the content store; the first missing blob
invalidates the whole result. -/
def collectManifestResults (sys : Sys) (store : Store) :
    List manifestPackage → Option (List GenerateResult)
  | [] => some []
  | p :: rest => do
    let content ← readCache sys store p.contentHash
    let out ← collectManifestResults sys store rest
    pure (⟨p.pkgPath, p.outputPath, content, []⟩ :: out)

/-- `readManifestResults`: load cached generation results if still valid;
`manifests` abstracts `readManifest` (read the manifest file for a key and
decode it). -/
def readManifestResults (sys : Sys) (manifests : Bytes → Option cacheManifest)
    (store : Store) (wd : Bytes) (env : List Bytes) (patterns : List Bytes)
    (opts : GenerateOptions) : Option (List GenerateResult) :=
  match manifests (manifestKey sys wd env patterns opts) with
  | none => none
  | some manifest =>
    if manifestValid sys (some manifest) then
      collectManifestResults sys store manifest.packages
    else none

/-- `detectOutputDir`: the shared directory of the provided file paths;
`none` when the list is empty or two files live in different directories. -/
def detectOutputDir (sys : Sys) (paths : List Bytes) : Option Bytes :=
  match paths with
  | [] => none
  | p :: rest =>
    let d := sys.dir p
    if rest.all fun q => sys.dir q = d then some d else none

/-- The collection loop of `extraCacheFiles`: clean each candidate path,
skip duplicates, stat it (skipping paths that fail to stat) and record the
triple.  Only successfully statted paths enter the seen set, as in the Go
loop. -/
def extraCacheFilesAux (sys : Sys) : List Bytes → List Bytes → List cacheFile
  | _, [] => []
  | seen, path :: rest =>
    let cp := sys.clean path
    if cp ∈ seen then extraCacheFilesAux sys seen rest
    else
      match sys.stat cp with
      | none => extraCacheFilesAux sys seen rest
      | some info =>
        ⟨cp, info.size, info.modTime⟩ :: extraCacheFilesAux sys (cp :: seen) rest

/-- `extraCacheFiles`: module/workspace files affecting builds, statted,
deduplicated and sorted by path. -/
def extraCacheFiles (sys : Sys) (wd : Bytes) : List cacheFile :=
  List.insertionSort (fun a b : cacheFile => a.path ≤ b.path)
    (extraCacheFilesAux sys [] (sys.extraPaths wd))

/-- The per-package body of `writeManifest`'s loop: `none` when the package
is skipped (no files, failed or empty cache key, conflicting output
directory, or failed stat/hash of its files). -/
def writeManifestPackage (sys : Sys) (metaStore : Bytes → Option cacheMeta)
    (opts : GenerateOptions) (pkg : Pkg) : Option manifestPackage :=
  let files0 := packageFiles pkg
  if files0 = [] then none
  else
    let files := sortBytes files0
    match (cacheKeyForPackage sys metaStore pkg opts).1 with
    | none => none
    | some contentHash =>
      if contentHash = [] then none
      else
        match detectOutputDir sys pkg.goFiles with
        | none => none
        | some outDir =>
          let outputPath := sys.join outDir (opts.prefixOutputFile ++ bs "wire_gen.go")
          match buildCacheFiles sys files with
          | none => none
          | some metaFiles =>
            let rootFiles := sortBytes (rootPackageFiles pkg)
            match buildCacheFiles sys rootFiles with
            | none => none
            | some rootMeta =>
              match hashFiles sys rootFiles with
              | none => none
              | some rootHash =>
                some ⟨pkg.pkgPath, outputPath, metaFiles, contentHash,
                      rootMeta, rootHash⟩

/-- `writeManifest`: the key and manifest handed to `writeManifestFile` for
a successful run (`none` when no packages were given, in which case nothing
is written; a nil package in the Go slice is likewise skipped). -/
def writeManifest (sys : Sys) (metaStore : Bytes → Option cacheMeta)
    (wd : Bytes) (env : List Bytes) (patterns : List Bytes)
    (opts : GenerateOptions) (pkgs : List Pkg) :
    Option (Bytes × cacheManifest) :=
  match pkgs with
  | [] => none
  | _ :: _ =>
    some (manifestKey sys wd env patterns opts,
      { version := cacheVersion
        wd := wd
        tags := opts.tags
        prefixOut := opts.prefixOutputFile
        headerHash := headerHash sys opts.header
        envHash := envHash sys env
        patterns := sortedStrings patterns
        packages := pkgs.filterMap (writeManifestPackage sys metaStore opts)
        extraFiles := extraCacheFiles sys wd })

/-- The collaborators `generateForPackage` drives: the object cache /
loader (`ensurePackage`, which may replace the package with a fully loaded
one), the injector synthesis pipeline (`generateInjectors` +
`copyNonInjectorDecls` + `frame`, yielding raw Go source or a non-empty
error list), and the formatter (`format.Source`). -/
structure GenCollab where
  ensurePackage : Except (List WErr) (Option Pkg)
  synth : Pkg → Except (List WErr) Bytes
  format : Bytes → Except WErr Bytes

/-- `generateForPackage`: run generation for a single package, returning
the `GenerateResult` and the updated content store.  Mirrors
generate_package.go: detect the output directory, compute the cache key,
return a cached blob on hit, otherwise load, synthesize, prepend the
header, format (keeping the raw bytes plus the error when formatting
fails), and persist the content only when the cache key is non-empty and
no errors occurred. -/
def generateForPackage (sys : Sys) (metaStore : Bytes → Option cacheMeta)
    (store : Store) (wo : WriteOutcome) (cl : GenCollab) (pkg : Pkg)
    (opts : GenerateOptions) : GenerateResult × Store :=
  let res0 : GenerateResult := ⟨pkg.pkgPath, [], [], []⟩
  match detectOutputDir sys pkg.goFiles with
  | none => ({ res0 with errs := [WErr.dirErr] }, store)
  | some outDir =>
    let res1 := { res0 with
      outputPath := sys.join outDir (opts.prefixOutputFile ++ bs "wire_gen.go") }
    match (cacheKeyForPackage sys metaStore pkg opts).1 with
    | none => ({ res1 with errs := [WErr.keyErr] }, store)
    | some cacheKey =>
      match (if cacheKey ≠ [] then readCache sys store cacheKey else none) with
      | some cached => ({ res1 with content := cached }, store)
      | none =>
        match cl.ensurePackage with
        | .error errs => ({ res1 with errs := errs }, store)
        | .ok loaded =>
          let pkg2 := loaded.getD pkg
          match cl.synth pkg2 with
          | .error errs => ({ res1 with errs := errs }, store)
          | .ok framed =>
            let goSrc := if opts.header ≠ [] then opts.header ++ framed else framed
            match cl.format goSrc with
            | .error e => ({ res1 with errs := [e], content := goSrc }, store)
            | .ok fmtSrc =>
              if cacheKey ≠ [] then
                ({ res1 with content := fmtSrc },
                 writeCache sys store wo cacheKey fmtSrc)
              else ({ res1 with content := fmtSrc }, store)

theorem head_cancel {v X Y : Bytes} (h : v ++ X = v ++ Y) : X = Y :=
  List.append_cancel_left h

theorem comp_cancel {v A B : Bytes} (h : v ++ 0 :: A = v ++ 0 :: B) : A = B := by
  have h2 := List.append_cancel_left h
  injection h2

theorem mid_cancel {t t' R : Bytes} (h : t ++ 0 :: R = t' ++ 0 :: R) : t = t' := by
  have h1 : (t ++ [0]) ++ R = (t' ++ [0]) ++ R := by
    simpa [List.append_assoc] using h
  exact List.append_cancel_right (List.append_cancel_right h1)

theorem nulfree_delim_inj :
    ∀ {a b r s : Bytes}, 0 ∉ a → 0 ∉ b → a ++ 0 :: r = b ++ 0 :: s →
      a = b ∧ r = s := by
  intro a
  induction a with
  | nil =>
    intro b r s _ hb h
    cases b with
    | nil => simpa using h
    | cons y ys =>
      simp only [List.nil_append, List.cons_append, List.cons_eq_cons] at h
      exact absurd (List.mem_cons.mpr (Or.inl h.1)) hb
  | cons x xs ih =>
    intro b r s ha hb h
    cases b with
    | nil =>
      simp only [List.cons_append, List.nil_append, List.cons_eq_cons] at h
      exact absurd (List.mem_cons.mpr (Or.inl h.1.symm)) ha
    | cons y ys =>
      simp only [List.cons_append, List.cons_eq_cons] at h
      have := ih (fun hm => ha (List.mem_cons_of_mem x hm))
        (fun hm => hb (List.mem_cons_of_mem y hm)) h.2
      exact ⟨by rw [h.1, this.1], this.2⟩

theorem listStream_inj :
    ∀ {l l' : List Bytes}, (∀ v ∈ l, 0 ∉ v) → (∀ v ∈ l', 0 ∉ v) →
      listStream l = listStream l' → l = l' := by
  intro l
  induction l with
  | nil =>
    intro l' _ _ h
    cases l' with
    | nil => rfl
    | cons v rest =>
      simp only [listStream, delim, List.append_assoc, List.singleton_append] at h
      exact absurd h.symm (by simp)
  | cons v rest ih =>
    intro l' hl hl' h
    cases l' with
    | nil =>
      simp only [listStream, delim, List.append_assoc, List.singleton_append] at h
      exact absurd h (by simp)
    | cons v' rest' =>
      simp only [listStream, delim, List.append_assoc, List.singleton_append] at h
      have hv := nulfree_delim_inj (hl v (List.mem_cons_self v rest))
        (hl' v' (List.mem_cons_self v' rest')) h
      have := ih (fun x hx => hl x (List.mem_cons_of_mem v hx))
        (fun x hx => hl' x (List.mem_cons_of_mem v' hx)) hv.2
      rw [hv.1, this]

theorem fileStream_congr (sys sys' : Sys) (l : List Bytes)
    (h : ∀ q ∈ l, sys'.readFile q = sys.readFile q) :
    fileStream sys' l = fileStream sys l := by
  induction l with
  | nil => rfl
  | cons q rest ih =>
    simp only [fileStream]
    rw [h q (List.mem_cons_self q rest),
      ih fun x hx => h x (List.mem_cons_of_mem q hx)]

theorem fileStream_cons (sys : Sys) (q : Bytes) (rest : List Bytes) :
    fileStream sys (q :: rest) =
      match sys.readFile q, fileStream sys rest with
      | some d, some t => some (delim q ++ delim d ++ t)
      | _, _ => none := by
  cases hq : sys.readFile q <;> cases ht : fileStream sys rest <;>
    simp [fileStream, hq, ht]

theorem fileStream_perturb (sys sys' : Sys) (p d d' : Bytes)
    (pre post : List Bytes)
    (hother : ∀ q, q ≠ p → sys'.readFile q = sys.readFile q)
    (hd : sys.readFile p = some d) (hd' : sys'.readFile p = some d')
    (hne : d ≠ d') (hpre : p ∉ pre) (hpost : p ∉ post)
    {S S' : Bytes}
    (hS : fileStream sys (pre ++ p :: post) = some S)
    (hS' : fileStream sys' (pre ++ p :: post) = some S') : S ≠ S' := by
  induction pre generalizing S S' with
  | nil =>
    rw [List.nil_append] at hS hS'
    have hpostEq : fileStream sys' post = fileStream sys post :=
      fileStream_congr sys sys' post fun q hq =>
        hother q (fun he => hpost (he ▸ hq))
    rw [fileStream_cons, hd] at hS
    rw [fileStream_cons, hd', hpostEq] at hS'
    cases hT : fileStream sys post with
    | none => rw [hT] at hS; simp at hS
    | some T =>
      rw [hT] at hS hS'
      simp only [Option.some.injEq] at hS hS'
      intro hcontra
      rw [← hS, ← hS'] at hcontra
      exact hne (List.append_cancel_right
        (List.append_cancel_left (List.append_cancel_right hcontra)))
  | cons q rest ih =>
    have hqp : q ≠ p := fun he => hpre (he ▸ List.mem_cons_self q rest)
    rw [List.cons_append] at hS hS'
    rw [fileStream_cons] at hS hS'
    rw [hother q hqp] at hS'
    cases hq : sys.readFile q with
    | none => rw [hq] at hS; simp at hS
    | some dq =>
      rw [hq] at hS hS'
      cases hT : fileStream sys (rest ++ p :: post) with
      | none => rw [hT] at hS; simp at hS
      | some T =>
        cases hT' : fileStream sys' (rest ++ p :: post) with
        | none => rw [hT'] at hS'; simp at hS'
        | some T' =>
          rw [hT] at hS; rw [hT'] at hS'
          simp only [Option.some.injEq] at hS hS'
          have hTT : T ≠ T' :=
            ih (fun he => hpre (List.mem_cons_of_mem q he)) hT hT'
          intro hcontra
          rw [← hS, ← hS'] at hcontra
          exact hTT (List.append_cancel_left hcontra)

theorem cacheMetaKey_congr (sys : Sys) (opts : GenerateOptions) {pkg pkg' : Pkg}
    (hpath : pkg.pkgPath = pkg'.pkgPath) :
    cacheMetaKey sys pkg opts = cacheMetaKey sys pkg' opts := by
  unfold cacheMetaKey; rw [hpath]

theorem cacheMetaMatches_congr (sys : Sys) (opts : GenerateOptions)
    {pkg pkg' : Pkg} (hpath : pkg.pkgPath = pkg'.pkgPath)
    (hroot : rootPackageFiles pkg = rootPackageFiles pkg') :
    ∀ (meta : cacheMeta) (files : List Bytes),
      cacheMetaMatches sys meta pkg opts files =
      cacheMetaMatches sys meta pkg' opts files := by
  intro meta files
  unfold cacheMetaMatches; rw [hpath, hroot]

/-- A digest stand-in for witnesses: prepend a marker byte.  It is injective
and never returns the empty string, the two properties the theorems assume
of SHA-256. -/
def hashCons : Bytes → Bytes := fun l => 1 :: l

theorem hashCons_injective : Function.Injective hashCons := by
  intro a b h
  injection h

theorem hashCons_ne_nil (l : Bytes) : hashCons l ≠ [] := by
  intro h
  cases h

/-- A concrete system for witnesses: one source file `"a"` of size 1,
mtime 5 and contents `[7]`. -/
def csys : Sys :=
  { hashHex := hashCons
    clean := id
    dir := fun _ => bs "d"
    join := fun a b => a ++ [47] ++ b
    tempDir := bs "t"
    stat := fun p => if p = bs "a" then some ⟨1, 5⟩ else none
    readFile := fun p => if p = bs "a" then some [7] else none
    extraPaths := fun _ => [] }

/-- Default options fixture. -/
def copts : GenerateOptions := ⟨[], [], []⟩

/-- A package with one Go file `"a"` and no imports. -/
def cpkgA : Pkg := .mk (bs "p") [bs "a"] [] []

/-- A package with no files. -/
def cpkg0 : Pkg := .mk (bs "q") [] [] []

/-- An empty content store. -/
def cstoreEmpty : Store := fun _ => none

/-- An empty metadata store. -/
def cmetaNone : Bytes → Option cacheMeta := fun _ => none

/-- Claim C7: the cache keys are independent of input ordering: permuting a
package's transitive file list leaves `cacheKeyForPackage` unchanged (files
are sorted before hashing), permuting the environment list leaves `envHash`
unchanged, and permuting the patterns list leaves `manifestKey` unchanged. -/
theorem claim7_order_independence :
    (∀ (sys : Sys) (metaStore : Bytes → Option cacheMeta)
       (opts : GenerateOptions) (pkg pkg' : Pkg),
       pkg.pkgPath = pkg'.pkgPath →
       rootPackageFiles pkg = rootPackageFiles pkg' →
       (packageFiles pkg).Perm (packageFiles pkg') →
       cacheKeyForPackage sys metaStore pkg opts =
         cacheKeyForPackage sys metaStore pkg' opts) ∧
    (∀ (sys : Sys) (env env' : List Bytes), env.Perm env' →
       envHash sys env = envHash sys env') ∧
    (∀ (sys : Sys) (wd : Bytes) (env : List Bytes)
       (patterns patterns' : List Bytes) (opts : GenerateOptions),
       patterns.Perm patterns' →
       manifestKey sys wd env patterns opts =
         manifestKey sys wd env patterns' opts) := by
  refine ⟨?_, ?_, ?_⟩
  · intro sys metaStore opts pkg pkg' hpath hroot hperm
    by_cases h0 : packageFiles pkg = []
    · have h0' : packageFiles pkg' = [] := ((h0 ▸ hperm).symm).eq_nil
      simp [cacheKeyForPackage, h0, h0']
    · have h0' : packageFiles pkg' ≠ [] := fun he =>
        h0 (hperm.trans (he ▸ List.Perm.refl _)).eq_nil
      simp only [cacheKeyForPackage, h0, h0', if_false, ite_false,
        sortBytes_perm_eq hperm, cacheMetaKey_congr sys opts hpath,
        cacheMetaMatches_congr sys opts hpath hroot, hpath, hroot]
  · intro sys env env' hperm
    by_cases h0 : env = []
    · have h0' : env' = [] := ((h0 ▸ hperm).symm).eq_nil
      rw [h0, h0']
    · have h0' : env' ≠ [] := fun he =>
        h0 (hperm.trans (he ▸ List.Perm.refl _)).eq_nil
      simp only [envHash, h0, h0', if_false, ite_false, sortedStrings,
        sortBytes_perm_eq hperm]
  · intro sys wd env patterns patterns' opts hperm
    simp only [manifestKey, sortedStrings, sortBytes_perm_eq hperm]

/-- Witness for C7: two concrete permuted environments get the same hash. -/
theorem claim7_witness :
    envHash csys [bs "B=2", bs "A=1"] = envHash csys [bs "A=1", bs "B=2"] :=
  claim7_order_independence.2.1 csys [bs "B=2", bs "A=1"] [bs "A=1", bs "B=2"]
    (by decide)

/-- Claim C8: for every manifest persisted by `writeManifest`, recomputing
the key from the stored manifest's own fields with `manifestKeyFromManifest`
yields the key it was stored under, which is `manifestKey(wd, env,
patterns, opts)`; and `manifestKeyFromManifest` of a nil manifest is the
empty string. -/
theorem claim8_manifest_key_roundtrip (sys : Sys)
    (metaStore : Bytes → Option cacheMeta) (wd : Bytes)
    (env patterns : List Bytes) (opts : GenerateOptions) (pkgs : List Pkg)
    (k : Bytes) (m : cacheManifest)
    (h : writeManifest sys metaStore wd env patterns opts pkgs = some (k, m)) :
    manifestKeyFromManifest sys (some m) = manifestKey sys wd env patterns opts ∧
    k = manifestKey sys wd env patterns opts ∧
    manifestKeyFromManifest sys none = [] := by
  match pkgs with
  | [] => simp [writeManifest] at h
  | _ :: _ =>
    simp only [writeManifest, Option.some.injEq, Prod.mk.injEq] at h
    obtain ⟨hk, hm⟩ := h
    refine ⟨?_, hk.symm, rfl⟩
    rw [← hm]
    simp only [manifestKeyFromManifest, manifestKey, sortedStrings,
      sortBytes_idem]

/-- Witness for C8 at a concrete run (one package with no files, so the
manifest records an empty package list but is still written). -/
theorem claim8_witness :
    manifestKeyFromManifest csys
        (some ⟨cacheVersion, bs "w", [], [], [], [], [], [], []⟩) =
      manifestKey csys (bs "w") [] [] copts :=
  (claim8_manifest_key_roundtrip csys cmetaNone (bs "w") [] [] copts [cpkg0]
    (manifestKey csys (bs "w") [] [] copts)
    ⟨cacheVersion, bs "w", [], [], [], [], [], [], []⟩ (by decide)).1

/-- Claim C10: `envHash` of the empty environment is the empty string;
`manifestValid` rejects every manifest with an empty env hash or an empty
package list; any manifest `writeManifest` produces for a run with an empty
environment is itself invalid; and `readManifestResults` returns no results
for an empty-environment run whenever the stored manifest at the run key
records an empty env hash (as every manifest this code writes for such a
run does). -/
theorem claim10_empty_env_never_cached :
    (∀ sys : Sys, envHash sys [] = []) ∧
    (∀ (sys : Sys) (m : cacheManifest), m.envHash = [] ∨ m.packages = [] →
       manifestValid sys (some m) = false) ∧
    (∀ (sys : Sys) (metaStore : Bytes → Option cacheMeta) (wd : Bytes)
       (patterns : List Bytes) (opts : GenerateOptions) (pkgs : List Pkg)
       (k : Bytes) (m : cacheManifest),
       writeManifest sys metaStore wd [] patterns opts pkgs = some (k, m) →
       manifestValid sys (some m) = false) ∧
    (∀ (sys : Sys) (manifests : Bytes → Option cacheManifest) (store : Store)
       (wd : Bytes) (patterns : List Bytes) (opts : GenerateOptions),
       (∀ m, manifests (manifestKey sys wd [] patterns opts) = some m →
          m.envHash = []) →
       readManifestResults sys manifests store wd [] patterns opts = none) := by
  have hrej : ∀ (sys : Sys) (m : cacheManifest),
      m.envHash = [] ∨ m.packages = [] → manifestValid sys (some m) = false := by
    intro sys m hm
    have hB : decide (m.envHash ≠ [] ∧ m.packages ≠ []) = false := by
      rcases hm with h | h <;> simp [h]
    simp [manifestValid, hB]
  refine ⟨fun _ => rfl, hrej, ?_, ?_⟩
  · intro sys metaStore wd patterns opts pkgs k m h
    match pkgs with
    | [] => simp [writeManifest] at h
    | _ :: _ =>
      simp only [writeManifest, Option.some.injEq, Prod.mk.injEq] at h
      refine hrej sys m (Or.inl ?_)
      rw [← h.2]
      rfl
  · intro sys manifests store wd patterns opts hall
    unfold readManifestResults
    cases hm : manifests (manifestKey sys wd [] patterns opts) with
    | none => rfl
    | some m =>
      have hv := hrej sys m (Or.inl (hall m hm))
      simp [hv]

/-- Witness for C10: a concrete manifest with a non-empty version but empty
env hash is rejected. -/
theorem claim10_witness :
    manifestValid csys (some ⟨cacheVersion, bs "w", [], [], [], [],
      [], [], []⟩) = false :=
  claim10_empty_env_never_cached.2.1 csys
    ⟨cacheVersion, bs "w", [], [], [], [], [], [], []⟩ (Or.inl rfl)

theorem collectManifestResults_spec (sys : Sys) (store : Store) :
    ∀ pkgs : List manifestPackage,
      (collectManifestResults sys store pkgs = none ↔
        ∃ p ∈ pkgs, readCache sys store p.contentHash = none) ∧
      (∀ rs, collectManifestResults sys store pkgs = some rs →
        rs = pkgs.map (fun p =>
          ⟨p.pkgPath, p.outputPath, (readCache sys store p.contentHash).getD [],
           []⟩) ∧
        ∀ p ∈ pkgs, (readCache sys store p.contentHash).isSome = true) := by
  intro pkgs
  induction pkgs with
  | nil =>
    constructor
    · simp [collectManifestResults]
    · intro rs h
      simp only [collectManifestResults, Option.some.injEq] at h
      simp [← h]
  | cons p rest ih =>
    cases hc : readCache sys store p.contentHash with
    | none =>
      have hcol : collectManifestResults sys store (p :: rest) = none := by
        simp [collectManifestResults, hc]
      constructor
      · rw [hcol]
        exact ⟨fun _ => ⟨p, List.mem_cons_self p rest, hc⟩, fun _ => rfl⟩
      · intro rs h
        rw [hcol] at h
        cases h
    | some c =>
      cases hrest : collectManifestResults sys store rest with
      | none =>
        have hcol : collectManifestResults sys store (p :: rest) = none := by
          simp [collectManifestResults, hc, hrest]
        constructor
        · rw [hcol]
          refine ⟨fun _ => ?_, fun _ => rfl⟩
          obtain ⟨q, hq, hq2⟩ := (ih.1).mp hrest
          exact ⟨q, List.mem_cons_of_mem p hq, hq2⟩
        · intro rs h
          rw [hcol] at h
          cases h
      | some rsrest =>
        have hrec := ih.2 rsrest hrest
        have hcol : collectManifestResults sys store (p :: rest) =
            some (⟨p.pkgPath, p.outputPath, c, []⟩ :: rsrest) := by
          simp [collectManifestResults, hc, hrest]
        constructor
        · rw [hcol]
          constructor
          · intro h
            cases h
          · intro hex
            exfalso
            obtain ⟨q, hq, hq2⟩ := hex
            rcases List.mem_cons.mp hq with he | he
            · rw [he, hc] at hq2
              cases hq2
            · have := (ih.1).mpr ⟨q, he, hq2⟩
              rw [hrest] at this
              cases this
        · intro rs h
          rw [hcol] at h
          injection h with h2
          constructor
          · rw [← h2, List.map_cons, ← hrec.1, hc]
            simp
          · intro q hq
            rcases List.mem_cons.mp hq with he | he
            · rw [he, hc]
              rfl
            · exact hrec.2 q he

/-- Claim C4: on a manifest-cache hit `readManifestResults` returns exactly
one `GenerateResult` per stored package, with `PkgPath` and `OutputPath`
from the manifest entry, `Content` read from the content store under the
stored `ContentHash`, and empty `Errs`; if no manifest exists for the run
key, the manifest is invalid, or any package's content blob is missing, it
returns nothing. -/
theorem claim4_read_manifest_results :
    (∀ (sys : Sys) (manifests : Bytes → Option cacheManifest) (store : Store)
       (wd : Bytes) (env patterns : List Bytes) (opts : GenerateOptions),
       manifests (manifestKey sys wd env patterns opts) = none →
       readManifestResults sys manifests store wd env patterns opts = none) ∧
    (∀ (sys : Sys) (manifests : Bytes → Option cacheManifest) (store : Store)
       (wd : Bytes) (env patterns : List Bytes) (opts : GenerateOptions)
       (m : cacheManifest),
       manifests (manifestKey sys wd env patterns opts) = some m →
       manifestValid sys (some m) = false →
       readManifestResults sys manifests store wd env patterns opts = none) ∧
    (∀ (sys : Sys) (manifests : Bytes → Option cacheManifest) (store : Store)
       (wd : Bytes) (env patterns : List Bytes) (opts : GenerateOptions)
       (m : cacheManifest),
       manifests (manifestKey sys wd env patterns opts) = some m →
       manifestValid sys (some m) = true →
       (∃ p ∈ m.packages, readCache sys store p.contentHash = none) →
       readManifestResults sys manifests store wd env patterns opts = none) ∧
    (∀ (sys : Sys) (manifests : Bytes → Option cacheManifest) (store : Store)
       (wd : Bytes) (env patterns : List Bytes) (opts : GenerateOptions)
       (m : cacheManifest) (rs : List GenerateResult),
       manifests (manifestKey sys wd env patterns opts) = some m →
       manifestValid sys (some m) = true →
       readManifestResults sys manifests store wd env patterns opts = some rs →
       rs = m.packages.map (fun p =>
         ⟨p.pkgPath, p.outputPath, (readCache sys store p.contentHash).getD [],
          []⟩) ∧
       ∀ p ∈ m.packages, (readCache sys store p.contentHash).isSome = true) := by
  refine ⟨?_, ?_, ?_, ?_⟩
  · intro sys manifests store wd env patterns opts hm
    unfold readManifestResults
    rw [hm]
  · intro sys manifests store wd env patterns opts m hm hv
    unfold readManifestResults
    rw [hm]
    simp [hv]
  · intro sys manifests store wd env patterns opts m hm hv hmiss
    unfold readManifestResults
    rw [hm]
    simp only [hv, if_true]
    exact (collectManifestResults_spec sys store m.packages).1.mpr hmiss
  · intro sys manifests store wd env patterns opts m rs hm hv hr
    unfold readManifestResults at hr
    rw [hm] at hr
    simp only [hv, if_true] at hr
    exact (collectManifestResults_spec sys store m.packages).2 rs hr

/-- A concrete manifest package whose file metadata and root hash match
`csys`, with content hash `[9]`. -/
def cmanPkg : manifestPackage :=
  ⟨bs "p", bs "o", [⟨bs "a", 1, 5⟩], [9], [⟨bs "a", 1, 5⟩], [1, 97, 0, 7, 0]⟩

/-- A concrete manifest that `manifestValid` accepts under `csys`. -/
def cmanValid : cacheManifest :=
  ⟨cacheVersion, bs "w", [], [], [], [5], [], [cmanPkg], []⟩

/-- A manifest store holding `cmanValid` under its run key. -/
def cmanifests : Bytes → Option cacheManifest := fun k =>
  if k = manifestKey csys (bs "w") [bs "E=1"] [] copts then some cmanValid
  else none

/-- A content store holding the blob for content hash `[9]`. -/
def cstoreBlob : Store := fun p =>
  if p = cachePath csys [9] then some (bs "gen") else none

/-- Witness for C4 at a concrete full manifest hit. -/
theorem claim4_witness :
    ([⟨bs "p", bs "o", bs "gen", []⟩] : List GenerateResult) =
      cmanValid.packages.map (fun p =>
        ⟨p.pkgPath, p.outputPath,
         (readCache csys cstoreBlob p.contentHash).getD [], []⟩) ∧
    ∀ p ∈ cmanValid.packages,
      (readCache csys cstoreBlob p.contentHash).isSome = true :=
  claim4_read_manifest_results.2.2.2 csys cmanifests cstoreBlob (bs "w")
    [bs "E=1"] [] copts cmanValid [⟨bs "p", bs "o", bs "gen", []⟩]
    (by decide) (by decide) (by decide)

/-- Claim C5: if the formatter rejects the synthesized source,
`generateForPackage` returns a result whose `Errs` is exactly the
formatting error and whose `Content` is the raw unformatted source bytes
with any user header prepended, and nothing is written to the cache. -/
theorem claim5_format_failure_keeps_output (sys : Sys)
    (metaStore : Bytes → Option cacheMeta) (store : Store) (wo : WriteOutcome)
    (cl : GenCollab) (pkg : Pkg) (opts : GenerateOptions) (outDir ck : Bytes)
    (loaded : Option Pkg) (framed : Bytes) (e : WErr)
    (h1 : detectOutputDir sys pkg.goFiles = some outDir)
    (h2 : (cacheKeyForPackage sys metaStore pkg opts).1 = some ck)
    (h3 : ck = [] ∨ readCache sys store ck = none)
    (h4 : cl.ensurePackage = .ok loaded)
    (h5 : cl.synth (loaded.getD pkg) = .ok framed)
    (h6 : cl.format (if opts.header ≠ [] then opts.header ++ framed else framed) =
      .error e) :
    (generateForPackage sys metaStore store wo cl pkg opts).1.errs = [e] ∧
    (generateForPackage sys metaStore store wo cl pkg opts).1.content =
      opts.header ++ framed ∧
    (generateForPackage sys metaStore store wo cl pkg opts).2 = store := by
  have h3' : (if ck ≠ [] then readCache sys store ck else none) = none := by
    rcases h3 with h | h <;> simp [h]
  simp only [generateForPackage, h1, h2, h3', h4, h5, h6]
  refine ⟨by trivial, ?_, by trivial⟩
  by_cases hh : opts.header = []
  · simp [hh]
  · simp [hh]

/-- The error collaborator for the C5/C9 witnesses: loading succeeds,
synthesis succeeds, formatting fails. -/
def cclFmtFail : GenCollab :=
  ⟨.ok none, fun _ => .ok (bs "src"), fun _ => .error (.fmtErr 3)⟩

/-- Witness for C5: with `cclFmtFail` the result keeps the raw source and
reports the format error. -/
theorem claim5_witness :
    (generateForPackage csys cmetaNone cstoreEmpty
      ⟨true, none, true, true, true⟩ cclFmtFail cpkgA copts).1.errs =
        [WErr.fmtErr 3] ∧
    (generateForPackage csys cmetaNone cstoreEmpty
      ⟨true, none, true, true, true⟩ cclFmtFail cpkgA copts).1.content =
        copts.header ++ bs "src" ∧
    (generateForPackage csys cmetaNone cstoreEmpty
      ⟨true, none, true, true, true⟩ cclFmtFail cpkgA copts).2 = cstoreEmpty :=
  claim5_format_failure_keeps_output csys cmetaNone cstoreEmpty
    ⟨true, none, true, true, true⟩ cclFmtFail cpkgA copts (bs "d")
    ((cacheKeyForPackage csys cmetaNone cpkgA copts).1.getD []) none (bs "src")
    (.fmtErr 3) (by decide) (by decide) (by decide) rfl rfl rfl

/-- Claim C9: `generateForPackage` writes to the content store only when
the result's `Errs` is empty: any store change implies an error-free result
and is exactly a `writeCache` of the returned `Content` under the package's
non-empty cache key; conversely any result with errors leaves the store
untouched. -/
theorem claim9_write_only_on_success (sys : Sys)
    (metaStore : Bytes → Option cacheMeta) (store : Store) (wo : WriteOutcome)
    (cl : GenCollab) (pkg : Pkg) (opts : GenerateOptions) :
    ((generateForPackage sys metaStore store wo cl pkg opts).1.errs ≠ [] →
      (generateForPackage sys metaStore store wo cl pkg opts).2 = store) ∧
    (∀ ck, (cacheKeyForPackage sys metaStore pkg opts).1 = some ck →
      (generateForPackage sys metaStore store wo cl pkg opts).2 ≠ store →
      (generateForPackage sys metaStore store wo cl pkg opts).1.errs = [] ∧
      ck ≠ [] ∧
      (generateForPackage sys metaStore store wo cl pkg opts).2 =
        writeCache sys store wo ck
          (generateForPackage sys metaStore store wo cl pkg opts).1.content) := by
  cases hdet : detectOutputDir sys pkg.goFiles with
  | none => simp [generateForPackage, hdet]
  | some outDir =>
    cases hck : (cacheKeyForPackage sys metaStore pkg opts).1 with
    | none => simp [generateForPackage, hdet, hck]
    | some cacheKey =>
      cases hhit : (if cacheKey ≠ [] then readCache sys store cacheKey
          else none) with
      | some cached => simp [generateForPackage, hdet, hck, hhit]
      | none =>
        cases hens : cl.ensurePackage with
        | error errs => simp [generateForPackage, hdet, hck, hhit, hens]
        | ok loaded =>
          cases hsyn : cl.synth (loaded.getD pkg) with
          | error errs => simp [generateForPackage, hdet, hck, hhit, hens, hsyn]
          | ok framed =>
            cases hfmt : cl.format
                (if opts.header = [] then framed else opts.header ++ framed) with
            | error e =>
              simp [generateForPackage, hdet, hck, hhit, hens, hsyn, hfmt]
            | ok fmtSrc =>
              by_cases hnil : cacheKey = []
              · simp [generateForPackage, hdet, hck, hhit, hens, hsyn, hfmt,
                  hnil]
              · have hhit2 : readCache sys store cacheKey = none := by
                  simpa [hnil] using hhit
                constructor
                · intro hne
                  simp [generateForPackage, hdet, hck, hhit2, hens, hsyn, hfmt,
                    hnil] at hne
                · intro ck hck2 _
                  injection hck2 with hck3
                  subst hck3
                  simp [generateForPackage, hdet, hck, hhit2, hens, hsyn, hfmt,
                    hnil]

/-- The error collaborator for the C9 witness: the loader reports errors. -/
def cclLoadFail : GenCollab :=
  ⟨.error [.loadErr 0], fun _ => .ok [], fun b => .ok b⟩

/-- Witness for C9: a failing load leaves the store untouched. -/
theorem claim9_witness :
    (generateForPackage csys cmetaNone cstoreEmpty
      ⟨true, none, true, true, true⟩ cclLoadFail cpkgA copts).2 = cstoreEmpty :=
  (claim9_write_only_on_success csys cmetaNone cstoreEmpty
    ⟨true, none, true, true, true⟩ cclLoadFail cpkgA copts).1 (by decide)

theorem atomicWrite_spec (store : Store) (wo : WriteOutcome)
    (dest data : Bytes)
    (hfresh : ∀ tmp, wo.temp = some tmp → store tmp = none ∧ tmp ≠ dest) :
    (atomicWrite store wo dest data dest = store dest ∨
      atomicWrite store wo dest data dest = some data) ∧
    (∀ tmp, wo.temp = some tmp → atomicWrite store wo dest data tmp = none) ∧
    (∀ p, p ≠ dest → wo.temp ≠ some p →
      atomicWrite store wo dest data p = store p) := by
  unfold atomicWrite
  cases hm : wo.mkdirOk with
  | false =>
    exact ⟨Or.inl rfl, fun tmp htmp => (hfresh tmp htmp).1, fun p _ _ => rfl⟩
  | true =>
    simp only [Bool.not_true, Bool.false_eq_true, if_false, ite_false]
    cases htemp : wo.temp with
    | none =>
      exact ⟨Or.inl rfl, fun tmp h => Option.noConfusion h, fun p _ _ => rfl⟩
    | some tmp =>
      obtain ⟨hstmp, htd⟩ := hfresh tmp htemp
      cases hw : wo.writeOk && wo.closeOk with
      | false =>
        refine ⟨Or.inl ?_, fun t ht => ?_, fun p hp hpt => ?_⟩
        · simp [Store.upd, htd, Ne.symm htd]
        · injection ht with ht2
          subst ht2
          simp [Store.upd]
        · have hpt2 : p ≠ tmp := fun he => hpt (by rw [he])
          simp [Store.upd, hpt2, hp]
      | true =>
        cases hr : wo.renameOk with
        | true =>
          refine ⟨Or.inr ?_, fun t ht => ?_, fun p hp hpt => ?_⟩
          · simp [Store.upd]
          · injection ht with ht2
            subst ht2
            simp [Store.upd, htd, Ne.symm htd]
          · have hpt2 : p ≠ tmp := fun he => hpt (by rw [he])
            simp [Store.upd, hpt2, hp]
        | false =>
          refine ⟨Or.inl ?_, fun t ht => ?_, fun p hp hpt => ?_⟩
          · simp [Store.upd, htd, Ne.symm htd]
          · injection ht with ht2
            subst ht2
            simp [Store.upd]
          · have hpt2 : p ≠ tmp := fun he => hpt (by rw [he])
            simp [Store.upd, hpt2, hp]

/-- Claim C6: every cache write — content blob (`writeCache`), metadata
entry (`writeCacheMeta`) and manifest file (`writeManifestFile`) — goes
through a freshly created temp file that is renamed into place; after the
call, whatever combination of `MkdirAll`/`CreateTemp`/`Write`/`Close`/
`Rename` failures occurred, the destination path holds either its previous
value or the complete new value, the temp file is gone, no other path is
touched, and no error is reported (the functions return nothing), so
callers observe cache write failures only as later misses. -/
theorem claim6_atomic_cache_writes (sys : Sys) (store : Store)
    (wo : WriteOutcome) (key content : Bytes) (mdata fdata : Bytes)
    (hfresh : ∀ tmp, wo.temp = some tmp → store tmp = none ∧
      tmp ≠ cachePath sys key ∧ tmp ≠ cacheMetaPath sys key ∧
      tmp ≠ cacheManifestPath sys key) :
    ((writeCache sys store wo key content (cachePath sys key) =
        store (cachePath sys key) ∨
      writeCache sys store wo key content (cachePath sys key) = some content) ∧
     (∀ tmp, wo.temp = some tmp →
        writeCache sys store wo key content tmp = none) ∧
     (∀ p, p ≠ cachePath sys key → wo.temp ≠ some p →
        writeCache sys store wo key content p = store p)) ∧
    ((writeCacheMeta sys store wo key (some mdata) (cacheMetaPath sys key) =
        store (cacheMetaPath sys key) ∨
      writeCacheMeta sys store wo key (some mdata) (cacheMetaPath sys key) =
        some mdata) ∧
     (∀ tmp, wo.temp = some tmp →
        writeCacheMeta sys store wo key (some mdata) tmp = none) ∧
     (∀ p, p ≠ cacheMetaPath sys key → wo.temp ≠ some p →
        writeCacheMeta sys store wo key (some mdata) p = store p)) ∧
    ((writeManifestFile sys store wo key (some fdata) (cacheManifestPath sys key) =
        store (cacheManifestPath sys key) ∨
      writeManifestFile sys store wo key (some fdata) (cacheManifestPath sys key) =
        some fdata) ∧
     (∀ tmp, wo.temp = some tmp →
        writeManifestFile sys store wo key (some fdata) tmp = none) ∧
     (∀ p, p ≠ cacheManifestPath sys key → wo.temp ≠ some p →
        writeManifestFile sys store wo key (some fdata) p = store p)) ∧
    (writeCacheMeta sys store wo key none = store ∧
     writeManifestFile sys store wo key none = store) := by
  refine ⟨?_, ?_, ?_, rfl, rfl⟩
  · exact atomicWrite_spec store wo (cachePath sys key) content
      fun tmp ht => ⟨(hfresh tmp ht).1, (hfresh tmp ht).2.1⟩
  · exact atomicWrite_spec store wo (cacheMetaPath sys key) mdata
      fun tmp ht => ⟨(hfresh tmp ht).1, (hfresh tmp ht).2.2.1⟩
  · exact atomicWrite_spec store wo (cacheManifestPath sys key) fdata
      fun tmp ht => ⟨(hfresh tmp ht).1, (hfresh tmp ht).2.2.2⟩

/-- Witness for C6: a concrete write with a fresh temp file lands the blob
at its destination and removes the temp file. -/
theorem claim6_witness :
    (writeCache csys cstoreEmpty ⟨true, some (bs "tmp1"), true, true, true⟩
        [9] (bs "blob") (cachePath csys [9]) = cstoreEmpty (cachePath csys [9]) ∨
      writeCache csys cstoreEmpty ⟨true, some (bs "tmp1"), true, true, true⟩
        [9] (bs "blob") (cachePath csys [9]) = some (bs "blob")) ∧
    writeCache csys cstoreEmpty ⟨true, some (bs "tmp1"), true, true, true⟩
        [9] (bs "blob") (bs "tmp1") = none :=
  have h := (claim6_atomic_cache_writes csys cstoreEmpty
    ⟨true, some (bs "tmp1"), true, true, true⟩ [9] (bs "blob") [] []
    (by
      intro tmp ht
      have ht2 : bs "tmp1" = tmp := by injection ht
      subst ht2
      exact ⟨rfl, by decide, by decide, by decide⟩)).1
  ⟨h.1, h.2.1 (bs "tmp1") rfl⟩

theorem buildCacheFilesFromMeta_length (sys : Sys) :
    ∀ (files : List cacheFile) (out : List cacheFile),
      buildCacheFilesFromMeta sys files = some out →
      out.length = files.length := by
  intro files
  induction files with
  | nil =>
    intro out h
    simp only [buildCacheFilesFromMeta, Option.some.injEq] at h
    simp [← h]
  | cons f rest ih =>
    intro out h
    simp only [buildCacheFilesFromMeta, Option.bind_eq_bind] at h
    cases hs : sys.stat f.path with
    | none => rw [hs] at h; simp at h
    | some info =>
      rw [hs] at h
      cases hr : buildCacheFilesFromMeta sys rest with
      | none => rw [hr] at h; simp at h
      | some out2 =>
        rw [hr] at h
        simp only [Option.some_bind, Option.pure_def, Option.some.injEq] at h
        rw [← h]
        simp [ih out2 hr]

theorem manifestPackageOk_iff (sys : Sys) (p : manifestPackage) :
    manifestPackageOk sys p = true ↔
      (p.contentHash ≠ [] ∧ p.rootFiles ≠ [] ∧ p.rootHash ≠ [] ∧
       buildCacheFilesFromMeta sys p.files = some p.files ∧
       buildCacheFilesFromMeta sys p.rootFiles = some p.rootFiles ∧
       hashFiles sys (sortBytes (p.rootFiles.map cacheFile.path)) =
         some p.rootHash) := by
  unfold manifestPackageOk
  cases h1 : buildCacheFilesFromMeta sys p.files with
  | none => simp [h1]
  | some cur =>
    cases h2 : buildCacheFilesFromMeta sys p.rootFiles with
    | none => simp [h2]
    | some rootCur =>
      cases h3 : hashFiles sys (sortBytes (p.rootFiles.map cacheFile.path)) with
      | none => simp [h3]
      | some rh =>
        simp only [Bool.and_eq_true, decide_eq_true_eq, Option.some.injEq]
        constructor
        · rintro ⟨⟨⟨⟨ha, hb, hc⟩, _, hd⟩, _, he⟩, hf⟩
          exact ⟨ha, hb, hc, hd.symm, he.symm, hf⟩
        · rintro ⟨ha, hb, hc, hd, he, hf⟩
          refine ⟨⟨⟨⟨ha, hb, hc⟩, ?_, hd.symm⟩, ?_, he.symm⟩, hf⟩
          · rw [hd]
          · rw [he]

theorem extraFilesOk_iff (sys : Sys) (extras : List cacheFile) :
    extraFilesOk sys extras = true ↔
      buildCacheFilesFromMeta sys extras = some extras := by
  unfold extraFilesOk
  by_cases he : extras = []
  · subst he
    simp [buildCacheFilesFromMeta]
  · simp only [he, if_false, ite_false]
    cases h1 : buildCacheFilesFromMeta sys extras with
    | none => simp
    | some cur =>
      simp only [Bool.and_eq_true, decide_eq_true_eq, Option.some.injEq]
      exact ⟨fun ⟨_, h⟩ => h.symm, fun h => ⟨by rw [h], h.symm⟩⟩

/-- Claim C3 (amended): `manifestValid` accepts a manifest iff its version
is current, its env hash is non-empty, its package list is non-empty, every
`ExtraFile` entry re-stats to exactly the stored triple, and every listed
package has a non-empty content hash, non-empty root file list and root
hash, `Files` and `RootFiles` entries that re-stat to exactly the stored
triples, and a recomputed root-file hash equal to the stored `RootHash`. -/
theorem claim3_manifest_valid_iff (sys : Sys) (m : cacheManifest) :
    manifestValid sys (some m) = true ↔
      (m.version = cacheVersion ∧ m.envHash ≠ [] ∧ m.packages ≠ [] ∧
       buildCacheFilesFromMeta sys m.extraFiles = some m.extraFiles ∧
       ∀ p ∈ m.packages,
         p.contentHash ≠ [] ∧ p.rootFiles ≠ [] ∧ p.rootHash ≠ [] ∧
         buildCacheFilesFromMeta sys p.files = some p.files ∧
         buildCacheFilesFromMeta sys p.rootFiles = some p.rootFiles ∧
         hashFiles sys (sortBytes (p.rootFiles.map cacheFile.path)) =
           some p.rootHash) := by
  simp only [manifestValid, Bool.and_eq_true, decide_eq_true_eq,
    List.all_eq_true, extraFilesOk_iff, manifestPackageOk_iff]
  tauto

/-- Counterexample for C3 as stated: a manifest whose version matches,
whose env hash is non-empty, with no extra files and no packages (so "every
ExtraFile matches" and "every listed package matches" hold vacuously) is
nevertheless rejected, because `manifestValid` also requires a non-empty
package list. -/
theorem claim3_counterexample :
    manifestValid csys (some ⟨cacheVersion, bs "w", [], [], [], [5], [], [],
      []⟩) = false ∧
    (⟨cacheVersion, bs "w", [], [], [], [5], [], [], []⟩ :
      cacheManifest).version = cacheVersion ∧
    (⟨cacheVersion, bs "w", [], [], [], [5], [], [], []⟩ :
      cacheManifest).envHash ≠ [] ∧
    buildCacheFilesFromMeta csys [] = some [] ∧
    (⟨cacheVersion, bs "w", [], [], [], [5], [], [], []⟩ :
      cacheManifest).packages = [] := by
  refine ⟨?_, rfl, by decide, rfl, rfl⟩
  decide

/-- Witness for C3: the amended characterization accepts the concrete valid
manifest `cmanValid`. -/
theorem claim3_witness : manifestValid csys (some cmanValid) = true :=
  (claim3_manifest_valid_iff csys cmanValid).mpr (by decide)

theorem buildCacheFiles_length (sys : Sys) :
    ∀ (files : List Bytes) (out : List cacheFile),
      buildCacheFiles sys files = some out → out.length = files.length := by
  intro files
  induction files with
  | nil =>
    intro out h
    simp only [buildCacheFiles, Option.some.injEq] at h
    simp [← h]
  | cons f rest ih =>
    intro out h
    simp only [buildCacheFiles, Option.bind_eq_bind] at h
    cases hs : sys.stat f with
    | none => rw [hs] at h; simp at h
    | some info =>
      rw [hs] at h
      cases hr : buildCacheFiles sys rest with
      | none => rw [hr] at h; simp at h
      | some out2 =>
        rw [hr] at h
        simp only [Option.some_bind, Option.pure_def, Option.some.injEq] at h
        rw [← h]
        simp [ih out2 hr]

/-- Claim C1 (amended): given a stored metadata entry whose identity fields
equal the current `(version, package path, tags, prefix, header hash)` —
what retrieval under the metadata key is meant to ensure — the entry is
trusted iff every listed `cacheFile` triple equals the current file's
`(cleaned path, size, mtime)`, the root package has at least one file, the
stored `RootHash` is non-empty and equals the hash recomputed over the root
package's direct files, and the stored `ContentHash` is non-empty; and
whenever the entry is trusted, `cacheKeyForPackage` returns the stored
`ContentHash` without recomputing the transitive hash. -/
theorem claim1_meta_trust_iff (sys : Sys) (meta : cacheMeta) (pkg : Pkg)
    (opts : GenerateOptions) (files : List Bytes)
    (hv : meta.version = cacheVersion) (hp : meta.pkgPath = pkg.pkgPath)
    (ht : meta.tags = opts.tags) (hx : meta.prefixOut = opts.prefixOutputFile)
    (hh : meta.headerHash = headerHash sys opts.header) :
    (cacheMetaMatches sys meta pkg opts files = true ↔
      (buildCacheFiles sys files = some meta.files ∧
       rootPackageFiles pkg ≠ [] ∧ meta.rootHash ≠ [] ∧
       hashFiles sys (sortBytes (rootPackageFiles pkg)) = some meta.rootHash ∧
       meta.contentHash ≠ [])) ∧
    (∀ metaStore : Bytes → Option cacheMeta,
       metaStore (cacheMetaKey sys pkg opts) = some meta →
       packageFiles pkg ≠ [] →
       cacheMetaMatches sys meta pkg opts (sortBytes (packageFiles pkg)) =
         true →
       (cacheKeyForPackage sys metaStore pkg opts).1 =
         some meta.contentHash) := by
  constructor
  · unfold cacheMetaMatches
    simp only [hv, hp, ht, hx, hh, ne_eq, not_true_eq_false, false_or,
      or_self, if_false, ite_false]
    cases hbf : buildCacheFiles sys files with
    | none => simp [ite_self]
    | some cur =>
      by_cases hlen : meta.files.length = files.length
      · by_cases heq : meta.files = cur
        · subst heq
          simp only [hlen, not_true_eq_false, if_false, ite_false,
            not_false_eq_true, ite_true, if_true, Option.some.injEq]
          by_cases hor : rootPackageFiles pkg = [] ∨ meta.rootHash = []
          · simp only [hor, if_true, ite_true]
            constructor
            · intro h; cases h
            · rintro ⟨_, h2, h3, _, _⟩
              rcases hor with h | h
              · exact absurd h h2
              · exact absurd h h3
          · push_neg at hor
            simp only [hor.1, hor.2, or_self, if_false, ite_false,
              not_false_eq_true]
            cases hhf : hashFiles sys (sortBytes (rootPackageFiles pkg)) with
            | none => simp
            | some rh =>
              by_cases hrhEq : rh = meta.rootHash
              · simp [hrhEq, hor.1, hor.2]
              · simp [hrhEq, Ne.symm hrhEq]
        · have hne2 : meta.files ≠ cur := heq
          simp only [hlen, not_true_eq_false, if_false, ite_false, hne2,
            not_false_eq_true, ite_true, if_true, Option.some.injEq]
          constructor
          · intro h; cases h
          · rintro ⟨h1, _⟩
            exact absurd h1.symm heq
      · have hbl := buildCacheFiles_length sys files cur hbf
        simp only [hlen, not_false_eq_true, if_true, ite_true,
          Option.some.injEq]
        constructor
        · intro h; cases h
        · rintro ⟨h1, _⟩
          rw [h1] at hbl
          exact absurd hbl hlen
  · intro metaStore hms hnf hmatch
    simp [cacheKeyForPackage, hnf, hms, hmatch]

/-- A stored metadata entry whose triples and root hash all match `csys`
but whose `ContentHash` is empty. -/
def cmetaEmptyCH : cacheMeta :=
  ⟨cacheVersion, bs "p", [], [], [], [⟨bs "a", 1, 5⟩], [], [1, 97, 0, 7, 0]⟩

/-- Counterexample for C1 as stated: for `cmetaEmptyCH` every listed
`cacheFile` equals the current triple and the recomputed root hash equals
the stored `RootHash` (and the identity fields all match), yet the entry is
not trusted — `cacheMetaMatches` is false and `cacheKeyForPackage` does not
return the stored (empty) `ContentHash` — because the code additionally
requires a non-empty stored `ContentHash`. -/
theorem claim1_counterexample :
    cacheMetaMatches csys cmetaEmptyCH cpkgA copts
        (sortBytes (packageFiles cpkgA)) = false ∧
    buildCacheFiles csys (sortBytes (packageFiles cpkgA)) =
      some cmetaEmptyCH.files ∧
    rootPackageFiles cpkgA ≠ [] ∧
    hashFiles csys (sortBytes (rootPackageFiles cpkgA)) =
      some cmetaEmptyCH.rootHash ∧
    cmetaEmptyCH.version = cacheVersion ∧
    cmetaEmptyCH.pkgPath = cpkgA.pkgPath ∧
    cmetaEmptyCH.tags = copts.tags ∧
    cmetaEmptyCH.prefixOut = copts.prefixOutputFile ∧
    cmetaEmptyCH.headerHash = headerHash csys copts.header ∧
    (cacheKeyForPackage csys
        (fun k => if k = cacheMetaKey csys cpkgA copts then some cmetaEmptyCH
         else none) cpkgA copts).1 ≠ some cmetaEmptyCH.contentHash := by
  decide

/-- A stored metadata entry that fully matches `csys`, with content hash
`[9]`. -/
def cmetaGood : cacheMeta :=
  ⟨cacheVersion, bs "p", [], [], [], [⟨bs "a", 1, 5⟩], [9], [1, 97, 0, 7, 0]⟩

/-- A metadata store holding `cmetaGood` under its metadata key. -/
def cmetaStoreGood : Bytes → Option cacheMeta := fun k =>
  if k = cacheMetaKey csys cpkgA copts then some cmetaGood else none

/-- Witness for C1: the matching stored entry is trusted and its content
hash is returned. -/
theorem claim1_witness :
    (cacheKeyForPackage csys cmetaStoreGood cpkgA copts).1 =
      some cmetaGood.contentHash :=
  (claim1_meta_trust_iff csys cmetaGood cpkgA copts
    (sortBytes (packageFiles cpkgA)) rfl rfl rfl rfl rfl).2 cmetaStoreGood
    (by decide) (by decide) (by decide)

/-- The per-package content hash computed during a
`Generate(ctx, wd, env, patterns, opts)` run, as a function of the full run
inputs: `generateForPackage` obtains it from `cacheKeyForPackage(pkg,
opts)` (generate_package.go), so the run's environment list and patterns
list are not among its inputs — they flow only into the package loader and
the run-level manifest key. -/
def generateRunContentKey (sys : Sys) (metaStore : Bytes → Option cacheMeta)
    (wd : Bytes) (env patterns : List Bytes) (opts : GenerateOptions)
    (pkg : Pkg) : Option Bytes :=
  (cacheKeyForPackage sys metaStore pkg opts).1

/-- Counterexample for C2 as stated: perturbing the environment list and
the patterns list — perturbations that do change the run's manifest key —
leaves the computed package `ContentHash` unchanged, because the content
hash does not depend on either input. -/
theorem claim2_counterexample :
    generateRunContentKey csys cmetaNone (bs "w") [bs "A=1"] [bs "./a"] copts
        cpkgA =
      generateRunContentKey csys cmetaNone (bs "w") [bs "A=2"] [bs "./b"] copts
        cpkgA ∧
    ([bs "A=1"] : List Bytes) ≠ [bs "A=2"] ∧
    ([bs "./a"] : List Bytes) ≠ [bs "./b"] ∧
    manifestKey csys (bs "w") [bs "A=1"] [bs "./a"] copts ≠
      manifestKey csys (bs "w") [bs "A=2"] [bs "./b"] copts := by
  refine ⟨rfl, by decide, by decide, by decide⟩

theorem headerHash_ne (sys : Sys) (hinj : Function.Injective sys.hashHex)
    (hnn : ∀ l, sys.hashHex l ≠ []) {h h' : Bytes} (hne : h ≠ h') :
    headerHash sys h ≠ headerHash sys h' := by
  unfold headerHash
  by_cases h1 : h = []
  · by_cases h2 : h' = []
    · exact absurd (h1.trans h2.symm) hne
    · simp only [h1, h2, if_true, if_false, ite_true, ite_false]
      exact fun he => hnn h' he.symm
  · by_cases h2 : h' = []
    · simp only [h1, h2, if_true, if_false, ite_true, ite_false]
      exact hnn h
    · simp only [h1, h2, if_false, ite_false]
      exact fun he => hne (hinj he)

theorem envHash_ne (sys : Sys) (hinj : Function.Injective sys.hashHex)
    (hnn : ∀ l, sys.hashHex l ≠ []) (env env' : List Bytes)
    (h0 : ∀ v ∈ env, 0 ∉ v) (h0' : ∀ v ∈ env', 0 ∉ v)
    (hne : sortedStrings env ≠ sortedStrings env') :
    envHash sys env ≠ envHash sys env' := by
  unfold envHash
  by_cases h1 : env = []
  · by_cases h2 : env' = []
    · exact absurd (by rw [h1, h2]) hne
    · simp only [h1, h2, if_true, if_false, ite_true, ite_false]
      exact fun he => hnn _ he.symm
  · by_cases h2 : env' = []
    · simp only [h1, h2, if_true, if_false, ite_true, ite_false]
      exact hnn _
    · simp only [h1, h2, if_false, ite_false]
      intro he
      have hls := hinj he
      have hsv : ∀ v ∈ sortedStrings env, 0 ∉ v := fun v hv =>
        h0 v ((sortBytes_perm env).mem_iff.mp hv)
      have hsv' : ∀ v ∈ sortedStrings env', 0 ∉ v := fun v hv =>
        h0' v ((sortBytes_perm env').mem_iff.mp hv)
      exact hne (listStream_inj hsv hsv' hls)

/-- Claim C2 (amended): assuming the digest is collision-free (injective,
never empty), the package `ContentHash` changes under a change to any
single transitive file's bytes (the file occurring once in the list, all
files readable) and under a change to exactly one of the `Tags`,
`PrefixOutputFile` or `Header` option fields.  The environment list and the
patterns list are not inputs to the `ContentHash` (see the counterexample);
instead, any change to the environment that alters the sorted NUL-free
variable list, and any change to the patterns that alters the sorted
NUL-free pattern list, changes the run's manifest key. -/
theorem claim2_hash_input_sensitivity :
    (∀ (sys sys' : Sys) (pkgPath : Bytes) (opts : GenerateOptions)
       (pre post : List Bytes) (p d d' S S' : Bytes),
       Function.Injective sys.hashHex → sys'.hashHex = sys.hashHex →
       (∀ q, q ≠ p → sys'.readFile q = sys.readFile q) →
       sys.readFile p = some d → sys'.readFile p = some d' → d ≠ d' →
       p ∉ pre → p ∉ post →
       fileStream sys (pre ++ p :: post) = some S →
       fileStream sys' (pre ++ p :: post) = some S' →
       contentHashForPaths sys pkgPath opts (pre ++ p :: post) ≠
         contentHashForPaths sys' pkgPath opts (pre ++ p :: post)) ∧
    (∀ (sys : Sys) (pkgPath : Bytes) (opts opts' : GenerateOptions)
       (files : List Bytes) (S : Bytes),
       Function.Injective sys.hashHex → fileStream sys files = some S →
       opts.header = opts'.header →
       opts.prefixOutputFile = opts'.prefixOutputFile →
       opts.tags ≠ opts'.tags →
       contentHashForPaths sys pkgPath opts files ≠
         contentHashForPaths sys pkgPath opts' files) ∧
    (∀ (sys : Sys) (pkgPath : Bytes) (opts opts' : GenerateOptions)
       (files : List Bytes) (S : Bytes),
       Function.Injective sys.hashHex → fileStream sys files = some S →
       opts.header = opts'.header → opts.tags = opts'.tags →
       opts.prefixOutputFile ≠ opts'.prefixOutputFile →
       contentHashForPaths sys pkgPath opts files ≠
         contentHashForPaths sys pkgPath opts' files) ∧
    (∀ (sys : Sys) (pkgPath : Bytes) (opts opts' : GenerateOptions)
       (files : List Bytes) (S : Bytes),
       Function.Injective sys.hashHex → (∀ l, sys.hashHex l ≠ []) →
       fileStream sys files = some S →
       opts.tags = opts'.tags →
       opts.prefixOutputFile = opts'.prefixOutputFile →
       opts.header ≠ opts'.header →
       contentHashForPaths sys pkgPath opts files ≠
         contentHashForPaths sys pkgPath opts' files) ∧
    (∀ (sys : Sys) (wd : Bytes) (env env' patterns : List Bytes)
       (opts : GenerateOptions),
       Function.Injective sys.hashHex → (∀ l, sys.hashHex l ≠ []) →
       (∀ v ∈ env, 0 ∉ v) → (∀ v ∈ env', 0 ∉ v) →
       sortedStrings env ≠ sortedStrings env' →
       manifestKey sys wd env patterns opts ≠
         manifestKey sys wd env' patterns opts) ∧
    (∀ (sys : Sys) (wd : Bytes) (env patterns patterns' : List Bytes)
       (opts : GenerateOptions),
       Function.Injective sys.hashHex →
       (∀ v ∈ patterns, 0 ∉ v) → (∀ v ∈ patterns', 0 ∉ v) →
       sortedStrings patterns ≠ sortedStrings patterns' →
       manifestKey sys wd env patterns opts ≠
         manifestKey sys wd env patterns' opts) := by
  refine ⟨?_, ?_, ?_, ?_, ?_, ?_⟩
  · intro sys sys' pkgPath opts pre post p d d' S S' hinj hhx hother hd hd'
      hdne hpre hpost hS hS' heq
    have hSne := fileStream_perturb sys sys' p d d' pre post hother hd hd'
      hdne hpre hpost hS hS'
    have hhd : headerHash sys' opts.header = headerHash sys opts.header := by
      unfold headerHash
      rw [hhx]
    rw [contentHashForPaths, contentHashForPaths, hS, hS', hhx, hhd] at heq
    simp only [Option.map_some'] at heq
    injection heq with heq2
    have hE := hinj heq2
    simp only [List.append_assoc] at hE
    exact hSne (List.append_cancel_left (List.append_cancel_left
      (List.append_cancel_left (List.append_cancel_left
        (List.append_cancel_left hE)))))
  · intro sys pkgPath opts opts' files S hinj hS hhead hpre hne heq
    rw [contentHashForPaths, contentHashForPaths, hS, ← hhead, ← hpre] at heq
    simp only [Option.map_some'] at heq
    injection heq with heq2
    have hE := hinj heq2
    simp only [List.append_assoc] at hE
    have h1 := List.append_cancel_left (List.append_cancel_left hE)
    have h2 := List.append_cancel_right h1
    exact hne (List.append_cancel_right h2)
  · intro sys pkgPath opts opts' files S hinj hS hhead htags hne heq
    rw [contentHashForPaths, contentHashForPaths, hS, ← hhead, ← htags] at heq
    simp only [Option.map_some'] at heq
    injection heq with heq2
    have hE := hinj heq2
    simp only [List.append_assoc] at hE
    have h1 := List.append_cancel_left (List.append_cancel_left
      (List.append_cancel_left hE))
    have h2 := List.append_cancel_right h1
    exact hne (List.append_cancel_right h2)
  · intro sys pkgPath opts opts' files S hinj hnn hS htags hpre hne heq
    rw [contentHashForPaths, contentHashForPaths, hS, ← htags, ← hpre] at heq
    simp only [Option.map_some'] at heq
    injection heq with heq2
    have hE := hinj heq2
    simp only [List.append_assoc] at hE
    have h1 := List.append_cancel_left (List.append_cancel_left
      (List.append_cancel_left (List.append_cancel_left hE)))
    have h2 := List.append_cancel_right h1
    exact headerHash_ne sys hinj hnn hne (List.append_cancel_right h2)
  · intro sys wd env env' patterns opts hinj hnn h0 h0' hsne heq
    have henv := envHash_ne sys hinj hnn env env' h0 h0' hsne
    unfold manifestKey at heq
    have hE := hinj heq
    simp only [List.append_assoc] at hE
    have h1 := List.append_cancel_left (List.append_cancel_left hE)
    have h2 := List.append_cancel_right h1
    exact henv (List.append_cancel_right h2)
  · intro sys wd env patterns patterns' opts hinj h0 h0' hsne heq
    unfold manifestKey at heq
    have hE := hinj heq
    simp only [List.append_assoc] at hE
    have h1 := List.append_cancel_left (List.append_cancel_left
      (List.append_cancel_left (List.append_cancel_left
        (List.append_cancel_left (List.append_cancel_left hE)))))
    have hsv : ∀ v ∈ sortedStrings patterns, 0 ∉ v := fun v hv =>
      h0 v ((sortBytes_perm patterns).mem_iff.mp hv)
    have hsv' : ∀ v ∈ sortedStrings patterns', 0 ∉ v := fun v hv =>
      h0' v ((sortBytes_perm patterns').mem_iff.mp hv)
    exact hsne (listStream_inj hsv hsv' h1)

/-- Witness for C2: changing only the `Tags` field changes the content
hash under the concrete injective digest. -/
theorem claim2_witness :
    contentHashForPaths csys (bs "p") copts [bs "a"] ≠
      contentHashForPaths csys (bs "p") ⟨[], [], [9]⟩ [bs "a"] :=
  claim2_hash_input_sensitivity.2.1 csys (bs "p") copts ⟨[], [], [9]⟩
    [bs "a"] [97, 0, 7, 0] hashCons_injective (by decide) rfl rfl (by decide)
